import Mathlib

/-!
Verification development for the `oz-mongo` repository's core subsystems:
the Redis-backed email work queue (`src/util/emailQueue.js`) and the
file/variant management model (`src/util/fileService.js`, `src/models/File.js`).

The JavaScript code is shallowly embedded as pure Lean functions.  The Redis
list primitives (`lPush`, `rPop`, `lRange`+`lRem`) are modelled as operations
on Lean lists whose head corresponds to the head of the Redis list.  Wall-clock
time (`Date.now()` / `new Date()`) is modelled by a natural-number clock that
strictly advances on every enqueue, which also supplies fresh message ids.
The Mongo collection backing the `File` model is modelled as a list of
records with unique ids, and external collaborators (sharp, the filesystem,
the notifier) are passed in as function parameters.
-/

namespace OzMongo

/-! ## Email queue state (src/util/emailQueue.js) -/

/-- The payload fields of an email job: the fields `addToQueue` receives and
the failure path of `processQueue` copies into the re-enqueued message. -/
structure EmailPayload where
  «to» : String
  subject : String
  content : String
  userId : Option String
  deriving DecidableEq, Repr

/-- A serialized queue message as built by `addToQueue`:
`{ id, ...emailData, createdAt, status: 'pending' }`. -/
structure QueueMessage where
  id : Nat
  payload : EmailPayload
  createdAt : Nat
  status : String
  deriving DecidableEq, Repr

/-- The Redis state visible to the queue: the `email_queue` list (pending),
the `email_processing` list, and the model clock supplying `Date.now()`. -/
structure QueueState where
  pending : List QueueMessage
  processing : List QueueMessage
  clock : Nat
  deriving DecidableEq, Repr

/-- Redis `LPUSH`: prepend at the head of the list. -/
def lPush (l : List α) (x : α) : List α := x :: l

/-- Redis `RPOP`: remove and return the element at the tail of the list. -/
def rPopList : List α → Option α × List α
  | [] => (none, [])
  | [x] => (some x, [])
  | x :: y :: rest =>
    let r := rPopList (y :: rest)
    (r.1, x :: r.2)

/-- `addToQueue(emailData)`: build a message with a fresh id and `createdAt`,
`LPUSH` it onto the pending list, return the generated id. -/
def addToQueue (s : QueueState) (p : EmailPayload) : Nat × QueueState :=
  let msg : QueueMessage :=
    { id := s.clock, payload := p, createdAt := s.clock, status := "pending" }
  (msg.id,
   { pending := lPush s.pending msg, processing := s.processing, clock := s.clock + 1 })

/-- `getFromQueue()`: `RPOP` from the pending list (FIFO against `LPUSH`). -/
def getFromQueue (s : QueueState) : Option QueueMessage × QueueState :=
  let r := rPopList s.pending
  (r.1, { s with pending := r.2 })

/-- `moveToProcessing(message)`: `LPUSH` onto the processing list. -/
def moveToProcessing (s : QueueState) (m : QueueMessage) : QueueState :=
  { s with processing := lPush s.processing m }

/-- The `lRange` scan + `lRem 1` in `removeFromProcessing`: remove the first
message (from the head) whose id matches. -/
def removeFirstById : List QueueMessage → Nat → List QueueMessage
  | [], _ => []
  | m :: rest, i => if m.id = i then rest else m :: removeFirstById rest i

/-- `removeFromProcessing(messageId)`. -/
def removeFromProcessing (s : QueueState) (i : Nat) : QueueState :=
  { s with processing := removeFirstById s.processing i }

/-- The world a consumer tick observes: the Redis state, how many delivery
attempts have been made (indexing into the notifier's behaviour), and the
payloads successfully delivered so far, in order. -/
structure QueueWorld where
  queue : QueueState
  sendCount : Nat
  delivered : List EmailPayload
  deriving DecidableEq, Repr

/-- `processQueue()`: pop one message (no-op when pending is empty), move it
to processing, attempt delivery; on success remove it from processing; on
failure re-enqueue a fresh copy of the payload (`addToQueue` with the four
payload fields) and then remove the failed copy from processing.
`notifierOk n` is the outcome of the n-th delivery attempt. -/
def processQueue (notifierOk : Nat → Bool) (w : QueueWorld) : QueueWorld :=
  match getFromQueue w.queue with
  | (none, _) => w
  | (some msg, s1) =>
    let s2 := moveToProcessing s1 msg
    if notifierOk w.sendCount then
      { queue := removeFromProcessing s2 msg.id,
        sendCount := w.sendCount + 1,
        delivered := w.delivered ++ [msg.payload] }
    else
      let s3 := (addToQueue s2 msg.payload).2
      { queue := removeFromProcessing s3 msg.id,
        sendCount := w.sendCount + 1,
        delivered := w.delivered }

/-- An empty queue world whose clock starts at `c`. -/
def emptyWorld (c : Nat) : QueueWorld :=
  { queue := { pending := [], processing := [], clock := c }, sendCount := 0, delivered := [] }

/-- Enqueue a payload into a world via `addToQueue`. -/
def enqueueW (w : QueueWorld) (p : EmailPayload) : QueueWorld :=
  { w with queue := (addToQueue w.queue p).2 }

/-! ## File data model (src/models/File.js) -/

/-- `DOMAIN_TYPES`: the four-value enum validated by the schema. -/
inductive Domain
  | memo
  | profileImage
  | templateImage
  | attachment
  deriving DecidableEq, Repr

/-- `FILE_STATUS`: the four-value status enum validated by the schema. -/
inductive FileStatus
  | active
  | deleted
  | processing
  | failed
  deriving DecidableEq, Repr

/-- Pixel dimensions as read back from sharp metadata. -/
structure Dimensions where
  width : Nat
  height : Nat
  deriving DecidableEq, Repr

/-- `metadata.original` of a File document. -/
structure OriginalMeta where
  filename : String
  path : String
  url : String
  size : Nat
  mimeType : String
  extension : String
  dimensions : Option Dimensions
  deriving DecidableEq, Repr

/-- One entry of the `metadata.resized` map. -/
structure ResizedMeta where
  filename : String
  path : String
  url : String
  size : Nat
  dimensions : Option Dimensions
  deriving DecidableEq, Repr

/-- The `stats` subdocument: download/view counters and last access stamp. -/
structure AccessStats where
  downloadCount : Nat
  viewCount : Nat
  lastAccessedAt : Option Nat
  deriving DecidableEq, Repr

/-- A File document.  `metadata.resized` is a JS `Map`, modelled as an
insertion-ordered association list with unique keys; `createdAt` is the
mongoose timestamp used by `findByUploader`'s descending sort. -/
structure FileAsset where
  id : Nat
  originalName : String
  domain : Domain
  referenceId : String
  uploadedBy : String
  original : OriginalMeta
  resized : List (String × ResizedMeta)
  status : FileStatus
  tags : List String
  description : String
  isPublic : Bool
  expiresAt : Option Nat
  stats : AccessStats
  createdAt : Nat
  deriving DecidableEq, Repr

/-- JS `String.prototype.startsWith`, modelled over the character list. -/
def strStartsWith (s pre : String) : Bool :=
  pre.data.isPrefixOf s.data

/-- The `isImage` virtual: `mimeType.startsWith('image/')`. -/
def FileAsset.isImage (f : FileAsset) : Bool :=
  strStartsWith f.original.mimeType "image/"

/-- The Mongo collection holding File documents, plus the id supply used
when a new document is constructed. -/
structure FileStore where
  files : List FileAsset
  nextId : Nat
  deriving DecidableEq, Repr

/-- `File.findById(id)`: first (in Mongo: unique) document with that id,
irrespective of its status. -/
def findFirstById : List FileAsset → Nat → Option FileAsset
  | [], _ => none
  | g :: rest, i => if g.id = i then some g else findFirstById rest i

/-- `File.findById` over a store. -/
def findById (s : FileStore) (i : Nat) : Option FileAsset :=
  findFirstById s.files i

/-- Replace the first document carrying `f.id` by `f` (mongoose `save()` on
an existing document updates the record with that `_id`). -/
def replaceFirstById : List FileAsset → FileAsset → List FileAsset
  | [], _ => []
  | g :: rest, f => if g.id = f.id then f :: rest else g :: replaceFirstById rest f

/-- `document.save()`: update the existing record with the same id, or
insert the document when it is new. -/
def saveDoc (s : FileStore) (f : FileAsset) : FileStore :=
  if (findFirstById s.files f.id).isSome then
    { s with files := replaceFirstById s.files f }
  else
    { s with files := s.files ++ [f] }

/-- Remove the first document with the given id. -/
def removeFirstByIdF : List FileAsset → Nat → List FileAsset
  | [], _ => []
  | g :: rest, i => if g.id = i then rest else g :: removeFirstByIdF rest i

/-- `File.findByIdAndDelete(id)`. -/
def findByIdAndDelete (s : FileStore) (i : Nat) : FileStore :=
  { s with files := removeFirstByIdF s.files i }

/-- The `softDelete` instance method: set `status = DELETED` (the `save()`
is performed by the caller-side store update). -/
def softDeleteDoc (f : FileAsset) : FileAsset :=
  { f with status := FileStatus.deleted }

/-- `Map.set` on `metadata.resized`: overwrite an existing key in place, or
append a new key at the end (JS `Map` insertion order). -/
def setEntry : List (String × ResizedMeta) → String → ResizedMeta → List (String × ResizedMeta)
  | [], k, v => [(k, v)]
  | (k', v') :: rest, k, v =>
    if k' = k then (k, v) :: rest else (k', v') :: setEntry rest k v

/-- The `addResizedVersion(type, fileData)` instance method, record part. -/
def addResizedVersionDoc (f : FileAsset) (type : String) (d : ResizedMeta) : FileAsset :=
  { f with resized := setEntry f.resized type d }

/-- The `incrementDownload` instance method at time `now`. -/
def incrementDownload (f : FileAsset) (now : Nat) : FileAsset :=
  { f with stats :=
    { f.stats with
      downloadCount := f.stats.downloadCount + 1
      lastAccessedAt := some now } }

/-- The `incrementView` instance method at time `now`. -/
def incrementView (f : FileAsset) (now : Nat) : FileAsset :=
  { f with stats :=
    { f.stats with
      viewCount := f.stats.viewCount + 1
      lastAccessedAt := some now } }

/-- `File.findByDomain(domain, referenceId)`: equality filter plus
`status: ACTIVE`. -/
def findByDomain (s : FileStore) (d : Domain) (r : String) : List FileAsset :=
  s.files.filter fun f =>
    f.domain == d && f.referenceId == r && f.status == FileStatus.active

/-- Options of `File.findByUploader` with the source's defaults. -/
structure UploaderQueryOptions where
  page : Nat := 1
  limit : Nat := 20
  domain : Option Domain := none
  deriving DecidableEq, Repr

/-- `File.findByUploader(uploaderId, {page, limit, domain})`: filter by
uploader (+ optional domain) and `status: ACTIVE`, sort by `createdAt`
descending, skip `(page-1)*limit`, take `limit`. -/
def findByUploader (s : FileStore) (u : String) (opts : UploaderQueryOptions) : List FileAsset :=
  let q := s.files.filter fun f =>
    f.uploadedBy == u && f.status == FileStatus.active &&
      (match opts.domain with
       | none => true
       | some d => f.domain == d)
  (((q.insertionSort fun a b => b.createdAt ≤ a.createdAt).drop
      ((opts.page - 1) * opts.limit)).take opts.limit)

/-! ## File service (src/util/fileService.js): delete operations -/

/-- `FileService.deleteFile(fileId)`: load by id (`'File not found'` when
absent), then `softDelete()` + persist. -/
def deleteFile (s : FileStore) (i : Nat) : Except String FileStore :=
  match findById s i with
  | none => Except.error "File not found"
  | some f => Except.ok (saveDoc s (softDeleteDoc f))

/-- `FileService.hardDeleteFile(fileId)`: load by id (`'File not found'`
when absent); attempt `fs.unlink` on the original blob and on every resized
blob, each in its own try/catch whose failure is only logged (the list of
attempt outcomes is returned so that non-propagation is visible); then
delete the metadata record unconditionally. -/
def hardDeleteFile (unlink : String → Except String Unit) (s : FileStore) (i : Nat) :
    Except String (FileStore × List (Except String Unit)) :=
  match findById s i with
  | none => Except.error "File not found"
  | some f =>
    let attempts :=
      unlink f.original.path :: f.resized.map fun e => unlink e.2.path
    Except.ok (findByIdAndDelete s i, attempts)

/-! ## Path/string helpers shared by saveFile and the resize pipeline -/

/-- Remove the first occurrence of `pat` from `s` (JS
`String.prototype.replace` with a string pattern and empty replacement). -/
def removeFirstSub : List Char → List Char → List Char
  | [], _ => []
  | c :: rest, pat =>
    if pat.isPrefixOf (c :: rest) then (c :: rest).drop pat.length
    else c :: removeFirstSub rest pat

/-- The `/\\/g → '/'` replacement applied to stored paths. -/
def slashify (cs : List Char) : List Char :=
  cs.map fun c => if c = '\\' then '/' else c

/-- `'/' + filePath.replace(srcBase, '').replace(/\\/g, '/')`: the public
URL computed from a stored path, relative to the source directory. -/
def publicUrlOf (srcBase p : String) : String :=
  "/" ++ String.mk (slashify (removeFirstSub p.data srcBase.data))

/-- Node `path.extname` on the basename: the suffix from the last dot,
empty for no dot or a lone leading dot. -/
def extnameOf (name : String) : String :=
  let base := (name.splitOn "/").getLastD ""
  let parts := base.splitOn "."
  match parts with
  | [] => ""
  | [_] => ""
  | "" :: [_] => ""
  | _ => "." ++ parts.getLastD ""

/-- Node `path.parse(filename).name`: the filename with its `extname`
stripped. -/
def stemOf (name : String) : String :=
  let parts := name.splitOn "."
  if parts.length ≤ 1 then name else String.intercalate "." parts.dropLast

/-- Node `path.dirname`. -/
def dirnameOf (p : String) : String :=
  match (p.splitOn "/").dropLast with
  | [] => "."
  | parts => String.intercalate "/" parts

/-! ## saveFile (src/util/fileService.js) -/

/-- The multer upload record passed to `saveFile`. -/
structure RawUpload where
  originalname : String
  filename : String
  path : String
  size : Nat
  mimetype : String
  deriving DecidableEq, Repr

/-- The `options` argument of `saveFile`; `none` models an absent (or JS
falsy) field, defaulted by `||`. -/
structure SaveOptions where
  tags : Option (List String) := none
  description : Option String := none
  isPublic : Option Bool := none
  expiresAt : Option Nat := none
  deriving DecidableEq, Repr

/-- `FileService.saveFile(fileData, domain, referenceId, uploadedBy,
options)`.  `sharpMeta` is the optional sharp collaborator probing image
dimensions; a probe failure is logged and leaves dimensions unset.  The
new document gets the store's next id and is persisted with
`status = ACTIVE` and an empty `resized` map. -/
def saveFile (sharpMeta : Option (String → Except String Dimensions)) (srcBase : String)
    (store : FileStore) (fileData : RawUpload) (domain : Domain)
    (referenceId uploadedBy : String) (options : SaveOptions) (now : Nat) :
    FileStore × FileAsset :=
  let extension := ((extnameOf fileData.originalname).toLower).drop 1
  let dimensions : Option Dimensions :=
    if strStartsWith fileData.mimetype "image/" then
      match sharpMeta with
      | none => none
      | some probe =>
        match probe fileData.path with
        | Except.ok d => some d
        | Except.error _ => none
    else none
  let fileUrl := publicUrlOf srcBase fileData.path
  let file : FileAsset :=
    { id := store.nextId, originalName := fileData.originalname, domain := domain,
      referenceId := referenceId, uploadedBy := uploadedBy,
      original :=
        { filename := fileData.filename, path := fileData.path, url := fileUrl,
          size := fileData.size, mimeType := fileData.mimetype, extension := extension,
          dimensions := dimensions },
      resized := [], status := FileStatus.active,
      tags := options.tags.getD [], description := options.description.getD "",
      isPublic := options.isPublic.getD false, expiresAt := options.expiresAt,
      stats := { downloadCount := 0, viewCount := 0, lastAccessedAt := none },
      createdAt := now }
  (saveDoc { store with nextId := store.nextId + 1 } file, file)

/-! ## createResizedVersions (src/util/fileService.js) -/

/-- One entry of `resizeSizes` / `defaultSizes`. -/
structure ResizeConfig where
  type : String
  width : Nat
  height : Nat
  quality : Nat := 85
  deriving DecidableEq, Repr

/-- The four standard sizes used when `resizeSizes` is empty. -/
def defaultSizes : List ResizeConfig :=
  [{ type := "thumbnail", width := 150, height := 150 },
   { type := "small", width := 300, height := 300 },
   { type := "medium", width := 600, height := 600 },
   { type := "large", width := 1200, height := 1200 }]

/-- `createSingleResizedVersion(fileRecord, sizeConfig)`: derive the
variant filename/path/url, invoke the resizer (sharp resize + toFile +
stat + metadata, collapsed into one collaborator call returning the output
byte size and actual dimensions), record the variant via
`addResizedVersion` (which persists), or propagate the failure. -/
def createSingleResizedVersion (resize : ResizeConfig → Except String (Nat × Dimensions))
    (srcBase : String) (store : FileStore) (f : FileAsset) (cfg : ResizeConfig) :
    Except String (FileStore × FileAsset) :=
  let resizedFilename := stemOf f.original.filename ++ "_" ++ cfg.type ++ "." ++ f.original.extension
  let resizedPath := dirnameOf f.original.path ++ "/" ++ resizedFilename
  let resizedUrl := publicUrlOf srcBase resizedPath
  match resize cfg with
  | Except.error e => Except.error e
  | Except.ok (sz, dims) =>
    let f' := addResizedVersionDoc f cfg.type
      { filename := resizedFilename, path := resizedPath, url := resizedUrl,
        size := sz, dimensions := some dims }
    Except.ok (saveDoc store f', f')

/-- The `for (const sizeConfig of sizesToProcess)` loop: run the variants
in order, stopping at the first failure; returns the store and record as
left by the last successful `addResizedVersion`, plus the error if any. -/
def runVariants (resize : ResizeConfig → Except String (Nat × Dimensions)) (srcBase : String) :
    FileStore → FileAsset → List ResizeConfig → FileStore × FileAsset × Option String
  | store, f, [] => (store, f, none)
  | store, f, cfg :: rest =>
    match createSingleResizedVersion resize srcBase store f cfg with
    | Except.error e => (store, f, some e)
    | Except.ok (store', f') => runVariants resize srcBase store' f' rest

/-- `FileService.createResizedVersions(fileRecord, resizeSizes)`: no-op
when sharp is unavailable or the record is not an image; otherwise set
`status = PROCESSING` and persist, run the variants, then persist
`status = ACTIVE` on full success or `status = FAILED` (re-throwing the
underlying error) on any failure. -/
def createResizedVersions (resizer : Option (ResizeConfig → Except String (Nat × Dimensions)))
    (srcBase : String) (store : FileStore) (f : FileAsset)
    (resizeSizes : List ResizeConfig) : FileStore × Except String FileAsset :=
  match resizer with
  | none => (store, Except.ok f)
  | some resize =>
    if f.isImage = false then (store, Except.ok f)
    else
      let sizesToProcess := if resizeSizes.length > 0 then resizeSizes else defaultSizes
      let f1 := { f with status := FileStatus.processing }
      let store1 := saveDoc store f1
      match runVariants resize srcBase store1 f1 sizesToProcess with
      | (store2, f2, none) =>
        let f3 := { f2 with status := FileStatus.active }
        (saveDoc store2 f3, Except.ok f3)
      | (store2, f2, some e) =>
        let f3 := { f2 with status := FileStatus.failed }
        (saveDoc store2 f3, Except.error e)

/-! ## getFileStats (src/util/fileService.js) -/

/-- One row of the `$group`/`$sort` aggregation: `_id` (the domain),
count, total size, average size. -/
structure DomainStat where
  domainKey : Domain
  count : Nat
  totalSize : Nat
  avgSize : Rat
  deriving DecidableEq, Repr

/-- The distinct domains appearing in a document list (grouping keys of
the `$group` stage; Mongo leaves group order unspecified, the list is
sorted afterwards). -/
def domainsIn : List FileAsset → List Domain
  | [] => []
  | f :: rest =>
    let ds := domainsIn rest
    if f.domain ∈ ds then ds else f.domain :: ds

/-- The `$group` accumulators for one domain over a document list. -/
def groupStats (files : List FileAsset) (d : Domain) : DomainStat :=
  let group := files.filter fun f => f.domain == d
  { domainKey := d, count := group.length,
    totalSize := (group.map fun f => f.original.size).sum,
    avgSize :=
      if group.length = 0 then 0
      else ((group.map fun f => f.original.size).sum : Rat) / (group.length : Rat) }

/-- The first aggregation pipeline of `getFileStats`: `$group` by domain
over ALL documents (the pipeline has no `$match` stage), then
`$sort {count: -1}`. -/
def byDomainStats (files : List FileAsset) : List DomainStat :=
  ((domainsIn files).map (groupStats files)).insertionSort fun a b => b.count ≤ a.count

/-- The spec's description of the per-domain list (`Modelled from the
spec`, for comparison only): per-domain stats computed over ACTIVE assets
only, sorted by count descending. -/
def specByDomainActive (store : FileStore) : List DomainStat :=
  byDomainStats (store.files.filter fun f => f.status == FileStatus.active)

/-- The value returned by `getFileStats`. -/
structure FileStatsResult where
  totalFiles : Nat
  totalSize : Nat
  byDomain : List DomainStat
  deriving DecidableEq, Repr

/-- `FileService.getFileStats()`: `totalFiles` counts ACTIVE documents,
`totalSize` sums sizes over ACTIVE documents, but `byDomain` aggregates
over every document regardless of status. -/
def getFileStats (store : FileStore) : FileStatsResult :=
  let activeFiles := store.files.filter fun f => f.status == FileStatus.active
  { totalFiles := activeFiles.length,
    totalSize := (activeFiles.map fun f => f.original.size).sum,
    byDomain := byDomainStats store.files }

/-! ## Access-stat operations (C9) -/

/-- One access-tracking call: a view or a download. -/
inductive AccessOp
  | view
  | download
  deriving DecidableEq, Repr

/-- Apply one access call at time `t`. -/
def applyAccess (f : FileAsset) (t : Nat) : AccessOp → FileAsset
  | AccessOp.view => incrementView f t
  | AccessOp.download => incrementDownload f t

/-- Run a sequence of access calls; the clock ticks once per call, so the
k-th call in the list happens at instant `t + k`. -/
def runAccess : FileAsset → Nat → List AccessOp → FileAsset
  | f, _, [] => f
  | f, t, op :: rest => runAccess (applyAccess f t op) (t + 1) rest

/-! ## Concrete fixtures used by witnesses -/

/-- A sample `metadata.original` block. -/
def sampleOriginal : OriginalMeta :=
  { filename := "a.png", path := "/uploads/profile-image/2025/10/a.png",
    url := "/uploads/profile-image/2025/10/a.png", size := 2048,
    mimeType := "image/png", extension := "png",
    dimensions := some { width := 800, height := 600 } }

/-- A sample resized-variant entry. -/
def sampleThumb : ResizedMeta :=
  { filename := "a_thumbnail.png", path := "/uploads/profile-image/2025/10/a_thumbnail.png",
    url := "/uploads/profile-image/2025/10/a_thumbnail.png", size := 512,
    dimensions := some { width := 150, height := 150 } }

/-- A sample active asset with one recorded variant and zeroed stats. -/
def sampleAsset : FileAsset :=
  { id := 1, originalName := "a.png", domain := Domain.profileImage,
    referenceId := "u1", uploadedBy := "u1", original := sampleOriginal,
    resized := [("thumbnail", sampleThumb)], status := FileStatus.active,
    tags := [], description := "", isPublic := false, expiresAt := none,
    stats := { downloadCount := 0, viewCount := 0, lastAccessedAt := none },
    createdAt := 0 }

/-- A store holding just `sampleAsset`. -/
def sampleStore : FileStore := { files := [sampleAsset], nextId := 2 }

/-- Ten interleaved access calls: 6 views and 4 downloads. -/
def tenOps : List AccessOp :=
  [AccessOp.view, AccessOp.download, AccessOp.view, AccessOp.view, AccessOp.download,
   AccessOp.download, AccessOp.view, AccessOp.view, AccessOp.download, AccessOp.view]

/-- A second active asset sharing domain/reference/uploader with
`sampleAsset`. -/
def secondAsset : FileAsset := { sampleAsset with id := 2, createdAt := 1 }

/-- A store with two active assets. -/
def twoAssetStore : FileStore := { files := [sampleAsset, secondAsset], nextId := 3 }

/-- `twoAssetStore` after soft-deleting the second asset. -/
def twoAssetStoreDel : FileStore := saveDoc twoAssetStore (softDeleteDoc secondAsset)

/-- The sample asset before any variant generation (empty `resized` map). -/
def imageAsset : FileAsset := { sampleAsset with resized := [] }

/-- A resizer that succeeds on the thumbnail variant and fails on every
other one. -/
def demoResize (cfg : ResizeConfig) : Except String (Nat × Dimensions) :=
  if cfg.type = "thumbnail" then Except.ok (512, { width := 150, height := 150 })
  else Except.error "resize failed"

/-- A store holding one soft-deleted asset: the per-domain aggregation of
`getFileStats` still counts it. -/
def cexStore : FileStore :=
  { files := [{ sampleAsset with status := FileStatus.deleted }], nextId := 2 }

/-- A store holding just `imageAsset`. -/
def demoStore : FileStore := { files := [imageAsset], nextId := 2 }

/-- The succeeding prefix (variant #1 of the four defaults). -/
def demoPre : List ResizeConfig := [{ type := "thumbnail", width := 150, height := 150 }]

/-- The failing config (variant #2 of the four defaults). -/
def demoBad : ResizeConfig := { type := "small", width := 300, height := 300 }

/-- The never-attempted tail (variants #3 and #4). -/
def demoPost : List ResizeConfig :=
  [{ type := "medium", width := 600, height := 600 },
   { type := "large", width := 1200, height := 1200 }]

end OzMongo

namespace OzMongo

/-! ## Lemmas about the store primitives -/

theorem findFirstById_id {l : List FileAsset} {i : Nat} {f : FileAsset}
    (h : findFirstById l i = some f) : f.id = i := by
  induction l with
  | nil => simp [findFirstById] at h
  | cons a rest ih =>
    by_cases ha : a.id = i
    · simp [findFirstById, ha] at h
      subst h
      exact ha
    · simp [findFirstById, ha] at h
      exact ih h

theorem findFirstById_eq_none_of_not_mem {l : List FileAsset} {i : Nat}
    (h : i ∉ l.map FileAsset.id) : findFirstById l i = none := by
  induction l with
  | nil => rfl
  | cons a rest ih =>
    simp only [List.map_cons, List.mem_cons] at h
    push_neg at h
    have ha : ¬a.id = i := fun hc => h.1 hc.symm
    simp [findFirstById, ha, ih h.2]

theorem findFirstById_replaceFirstById {l : List FileAsset} {i : Nat} {f g : FileAsset}
    (hg : g.id = i) (h : findFirstById l i = some f) :
    findFirstById (replaceFirstById l g) i = some g := by
  induction l with
  | nil => simp [findFirstById] at h
  | cons a rest ih =>
    by_cases ha : a.id = i
    · simp [replaceFirstById, ha, hg, findFirstById]
    · have : a.id ≠ g.id := by rw [hg]; exact ha
      simp [findFirstById, ha] at h
      simp [replaceFirstById, this, findFirstById, ha]
      exact ih h

theorem replaceFirstById_self {l : List FileAsset} {f : FileAsset}
    (h : findFirstById l f.id = some f) : replaceFirstById l f = l := by
  induction l with
  | nil => rfl
  | cons a rest ih =>
    by_cases ha : a.id = f.id
    · simp [findFirstById, ha] at h
      simp [replaceFirstById, ha, h]
    · simp [findFirstById, ha] at h
      simp [replaceFirstById, ha, ih h]

theorem findFirstById_removeFirstByIdF {l : List FileAsset} {i : Nat}
    (hnodup : (l.map FileAsset.id).Nodup) :
    findFirstById (removeFirstByIdF l i) i = none := by
  induction l with
  | nil => rfl
  | cons a rest ih =>
    simp only [List.map_cons, List.nodup_cons] at hnodup
    by_cases ha : a.id = i
    · have : i ∉ rest.map FileAsset.id := ha ▸ hnodup.1
      simp [removeFirstByIdF, ha, findFirstById_eq_none_of_not_mem this]
    · simp [removeFirstByIdF, ha, findFirstById, ih hnodup.2]

theorem mem_replaceFirstById_of_id {l : List FileAsset} {g x : FileAsset}
    (hnodup : (l.map FileAsset.id).Nodup) (hx : x ∈ replaceFirstById l g)
    (hid : x.id = g.id) : x = g := by
  induction l with
  | nil => simp [replaceFirstById] at hx
  | cons a rest ih =>
    simp only [List.map_cons, List.nodup_cons] at hnodup
    by_cases ha : a.id = g.id
    · simp [replaceFirstById, ha] at hx
      rcases hx with hx | hx
      · exact hx
      · have hmem : x.id ∈ rest.map FileAsset.id := List.mem_map_of_mem FileAsset.id hx
        rw [hid, ← ha] at hmem
        exact absurd hmem hnodup.1
    · simp [replaceFirstById, ha] at hx
      rcases hx with hx | hx
      · exact absurd (hx ▸ hid) ha
      · exact ih hnodup.2 hx

/-- `softDelete` on an already-deleted document is the identity. -/
theorem softDeleteDoc_of_deleted {f : FileAsset} (h : f.status = FileStatus.deleted) :
    softDeleteDoc f = f := by
  cases f
  simp_all [softDeleteDoc]

/-- Saving a document identical to the one stored under its id changes
nothing. -/
theorem saveDoc_self {s : FileStore} {f : FileAsset}
    (h : findFirstById s.files f.id = some f) : saveDoc s f = s := by
  have hs : (findFirstById s.files f.id).isSome := by rw [h]; rfl
  simp [saveDoc, hs, replaceFirstById_self h]

/-! ## Theorems: delete operations (C4, C7, C10) -/

/-- Core fact shared by the hard-delete theorems: for any `unlink`
behaviour, `hardDeleteFile` on an existing id succeeds and the record is
gone afterwards. -/
theorem hardDeleteFile_removes (unlink : String → Except String Unit)
    (s : FileStore) (i : Nat) (f : FileAsset)
    (hnodup : (s.files.map FileAsset.id).Nodup)
    (hf : findById s i = some f) :
    ∃ attempts,
      hardDeleteFile unlink s i = Except.ok (findByIdAndDelete s i, attempts) ∧
      findById (findByIdAndDelete s i) i = none := by
  refine ⟨unlink f.original.path :: f.resized.map fun e => unlink e.2.path, ?_, ?_⟩
  · simp [hardDeleteFile, hf]
  · simpa [findById, findByIdAndDelete] using findFirstById_removeFirstByIdF hnodup

/-- C4: for any blob-store `unlink` behaviour — including one that fails on
every path — `hardDeleteFile` on an existing id succeeds, removes the
metadata record (a subsequent `findById` returns `none`), and merely
collects the individual blob-deletion outcomes without propagating them. -/
theorem hard_delete_guarantee (unlink : String → Except String Unit)
    (s : FileStore) (i : Nat) (f : FileAsset)
    (hnodup : (s.files.map FileAsset.id).Nodup)
    (hf : findById s i = some f) :
    ∃ attempts,
      hardDeleteFile unlink s i = Except.ok (findByIdAndDelete s i, attempts) ∧
      findById (findByIdAndDelete s i) i = none :=
  hardDeleteFile_removes unlink s i f hnodup hf

/-- Witness for C4: a one-asset store and an unlink that always fails. -/
theorem hard_delete_guarantee_witness :
    ((sampleStore.files.map FileAsset.id).Nodup ∧ findById sampleStore 1 = some sampleAsset) ∧
    ∃ attempts,
      hardDeleteFile (fun _ => Except.error "EACCES") sampleStore 1 =
        Except.ok (findByIdAndDelete sampleStore 1, attempts) ∧
      findById (findByIdAndDelete sampleStore 1) 1 = none :=
  ⟨⟨by decide, by decide⟩,
   hard_delete_guarantee (fun _ => Except.error "EACCES") sampleStore 1 sampleAsset
     (by decide) (by decide)⟩

/-- C7: the first `deleteFile` persists `status = deleted`; a second call on
the same id succeeds, changes nothing, and never throws. -/
theorem soft_delete_idempotent (s s' : FileStore) (i : Nat)
    (h : deleteFile s i = Except.ok s') :
    (∃ f', findById s' i = some f' ∧ f'.status = FileStatus.deleted) ∧
    deleteFile s' i = Except.ok s' := by
  unfold deleteFile at h
  cases hf : findById s i with
  | none => rw [hf] at h; exact absurd h (by simp)
  | some f =>
    rw [hf] at h
    simp only [Except.ok.injEq] at h
    subst h
    have hf' : findFirstById s.files i = some f := hf
    have hid0 : f.id = i := findFirstById_id hf'
    have hid : (softDeleteDoc f).id = i := hid0
    have hsome : (findFirstById s.files (softDeleteDoc f).id).isSome := by
      rw [hid]; simp [hf']
    have hfiles : (saveDoc s (softDeleteDoc f)).files =
        replaceFirstById s.files (softDeleteDoc f) := by
      simp [saveDoc, hsome]
    have hfind : findById (saveDoc s (softDeleteDoc f)) i = some (softDeleteDoc f) := by
      rw [findById, hfiles]
      exact findFirstById_replaceFirstById hid hf'
    refine ⟨⟨softDeleteDoc f, hfind, rfl⟩, ?_⟩
    have hidem : softDeleteDoc (softDeleteDoc f) = softDeleteDoc f :=
      softDeleteDoc_of_deleted rfl
    have hstep : deleteFile (saveDoc s (softDeleteDoc f)) i =
        Except.ok (saveDoc (saveDoc s (softDeleteDoc f)) (softDeleteDoc (softDeleteDoc f))) := by
      simp [deleteFile, hfind]
    have hfind' : findFirstById (saveDoc s (softDeleteDoc f)).files (softDeleteDoc f).id =
        some (softDeleteDoc f) := by
      rw [hid]; exact hfind
    rw [hstep, hidem, saveDoc_self hfind']

/-- Witness for C7: soft delete the sample asset twice. -/
theorem soft_delete_idempotent_witness :
    deleteFile sampleStore 1 = Except.ok (saveDoc sampleStore (softDeleteDoc sampleAsset)) ∧
    ((∃ f', findById (saveDoc sampleStore (softDeleteDoc sampleAsset)) 1 = some f' ∧
        f'.status = FileStatus.deleted) ∧
     deleteFile (saveDoc sampleStore (softDeleteDoc sampleAsset)) 1 =
       Except.ok (saveDoc sampleStore (softDeleteDoc sampleAsset))) :=
  ⟨rfl, soft_delete_idempotent sampleStore _ 1 rfl⟩

/-- C10: the load in `deleteFile`/`hardDeleteFile` reports `File not found`
exactly when no record with the id exists, regardless of status: a
soft-deleted asset is still found by id, so `deleteFile` on it succeeds as
a no-op update and `hardDeleteFile` on it still removes the record. -/
theorem load_not_found_iff_absent (unlink : String → Except String Unit)
    (s : FileStore) (i : Nat)
    (hnodup : (s.files.map FileAsset.id).Nodup) :
    (deleteFile s i = Except.error "File not found" ↔ findById s i = none) ∧
    (hardDeleteFile unlink s i = Except.error "File not found" ↔ findById s i = none) ∧
    (∀ f, findById s i = some f → f.status = FileStatus.deleted →
      (∃ s₂, deleteFile s i = Except.ok s₂ ∧ findById s₂ i = some f) ∧
      (∃ s₃ attempts, hardDeleteFile unlink s i = Except.ok (s₃, attempts) ∧
        findById s₃ i = none)) := by
  refine ⟨?_, ?_, ?_⟩
  · cases hf : findById s i <;> simp [deleteFile, hf]
  · cases hf : findById s i <;> simp [hardDeleteFile, hf]
  · intro f hf hdel
    have hf' : findFirstById s.files i = some f := hf
    have hsd : softDeleteDoc f = f := softDeleteDoc_of_deleted hdel
    constructor
    · refine ⟨saveDoc s (softDeleteDoc f), by simp [deleteFile, hf], ?_⟩
      rw [hsd]
      have hid : f.id = i := findFirstById_id hf'
      have hsome : (findFirstById s.files f.id).isSome := by
        rw [hid]; simp [hf']
      have hfiles : (saveDoc s f).files = replaceFirstById s.files f := by
        simp [saveDoc, hsome]
      rw [findById, hfiles]
      exact findFirstById_replaceFirstById hid hf'
    · obtain ⟨att, h1, h2⟩ := hardDeleteFile_removes unlink s i f hnodup hf
      exact ⟨findByIdAndDelete s i, att, h1, h2⟩

/-- Witness for C10: a store holding one soft-deleted asset. -/
theorem load_not_found_iff_absent_witness :
    ((({ files := [softDeleteDoc sampleAsset], nextId := 2 } : FileStore).files.map
        FileAsset.id).Nodup) ∧
    ((deleteFile { files := [softDeleteDoc sampleAsset], nextId := 2 } 1 =
        Except.error "File not found" ↔
      findById { files := [softDeleteDoc sampleAsset], nextId := 2 } 1 = none) ∧
     (hardDeleteFile (fun _ => Except.error "EACCES")
        { files := [softDeleteDoc sampleAsset], nextId := 2 } 1 =
        Except.error "File not found" ↔
      findById { files := [softDeleteDoc sampleAsset], nextId := 2 } 1 = none) ∧
     (∀ f, findById { files := [softDeleteDoc sampleAsset], nextId := 2 } 1 = some f →
        f.status = FileStatus.deleted →
        (∃ s₂, deleteFile { files := [softDeleteDoc sampleAsset], nextId := 2 } 1 =
            Except.ok s₂ ∧ findById s₂ 1 = some f) ∧
        (∃ s₃ attempts, hardDeleteFile (fun _ => Except.error "EACCES")
            { files := [softDeleteDoc sampleAsset], nextId := 2 } 1 =
            Except.ok (s₃, attempts) ∧ findById s₃ 1 = none))) :=
  ⟨by decide,
   load_not_found_iff_absent (fun _ => Except.error "EACCES")
     { files := [softDeleteDoc sampleAsset], nextId := 2 } 1 (by decide)⟩

/-! ## Theorems: query exclusivity (C6) -/

/-- C6: `findByDomain` and `findByUploader` only ever return `active`
assets, and after a soft delete the deleted id can no longer appear in any
domain query result. -/
theorem queries_exclude_non_active (s s' : FileStore) (d : Domain) (r u : String)
    (opts : UploaderQueryOptions) (i : Nat) :
    (∀ f ∈ findByDomain s d r, f.status = FileStatus.active) ∧
    (∀ f ∈ findByUploader s u opts, f.status = FileStatus.active) ∧
    ((s.files.map FileAsset.id).Nodup → deleteFile s i = Except.ok s' →
      ∀ f ∈ findByDomain s' d r, f.id ≠ i) := by
  refine ⟨?_, ?_, ?_⟩
  · intro f hf
    rw [findByDomain, List.mem_filter] at hf
    have h := hf.2
    simp only [Bool.and_eq_true, beq_iff_eq] at h
    exact h.2
  · intro f hf
    have h1 := List.mem_of_mem_take hf
    have h2 := List.Sublist.mem h1 (List.drop_sublist _ _)
    rw [List.mem_insertionSort, List.mem_filter] at h2
    have h := h2.2
    simp only [Bool.and_eq_true, beq_iff_eq] at h
    exact h.1.2
  · intro hnodup hdel f hf hfi
    unfold deleteFile at hdel
    cases hf0 : findById s i with
    | none => rw [hf0] at hdel; exact absurd hdel (by simp)
    | some f0 =>
      rw [hf0] at hdel
      simp only [Except.ok.injEq] at hdel
      subst hdel
      have hf0' : findFirstById s.files i = some f0 := hf0
      have hid0 : f0.id = i := findFirstById_id hf0'
      have hidsd : (softDeleteDoc f0).id = i := hid0
      have hsome : (findFirstById s.files (softDeleteDoc f0).id).isSome := by
        rw [hidsd]; simp [hf0']
      have hfiles : (saveDoc s (softDeleteDoc f0)).files =
          replaceFirstById s.files (softDeleteDoc f0) := by
        simp [saveDoc, hsome]
      rw [findByDomain, List.mem_filter, hfiles] at hf
      have hfe : f = softDeleteDoc f0 :=
        mem_replaceFirstById_of_id hnodup hf.1 (by rw [hfi, hidsd])
      have hstat := hf.2
      simp only [Bool.and_eq_true, beq_iff_eq] at hstat
      rw [hfe] at hstat
      exact absurd hstat.2 (by simp [softDeleteDoc])

/-- Witness for C6: a two-asset store, one asset then soft-deleted. -/
theorem queries_exclude_non_active_witness :
    (sampleAsset ∈ findByDomain twoAssetStore Domain.profileImage "u1" ∧
      sampleAsset.status = FileStatus.active) ∧
    (sampleAsset ∈ findByUploader twoAssetStore "u1" {} ∧
      sampleAsset.status = FileStatus.active) ∧
    ((twoAssetStore.files.map FileAsset.id).Nodup ∧
      deleteFile twoAssetStore 2 = Except.ok twoAssetStoreDel ∧
      sampleAsset ∈ findByDomain twoAssetStoreDel Domain.profileImage "u1" ∧
      sampleAsset.id ≠ 2) :=
  ⟨⟨by decide,
    (queries_exclude_non_active twoAssetStore twoAssetStoreDel Domain.profileImage "u1" "u1"
      {} 2).1 sampleAsset (by decide)⟩,
   ⟨by decide,
    (queries_exclude_non_active twoAssetStore twoAssetStoreDel Domain.profileImage "u1" "u1"
      {} 2).2.1 sampleAsset (by decide)⟩,
   by decide, rfl,
   by decide,
   (queries_exclude_non_active twoAssetStore twoAssetStoreDel Domain.profileImage "u1" "u1"
      {} 2).2.2 (by decide) rfl sampleAsset (by decide)⟩

/-! ## Theorems: access statistics (C9) -/

theorem runAccess_viewCount (ops : List AccessOp) : ∀ (f : FileAsset) (t : Nat),
    (runAccess f t ops).stats.viewCount = f.stats.viewCount + ops.count AccessOp.view := by
  induction ops with
  | nil => intro f t; simp [runAccess]
  | cons op rest ih =>
    intro f t
    cases op <;>
      simp [runAccess, applyAccess, ih, incrementView, incrementDownload,
        List.count_cons] <;> omega

theorem runAccess_downloadCount (ops : List AccessOp) : ∀ (f : FileAsset) (t : Nat),
    (runAccess f t ops).stats.downloadCount =
      f.stats.downloadCount + ops.count AccessOp.download := by
  induction ops with
  | nil => intro f t; simp [runAccess]
  | cons op rest ih =>
    intro f t
    cases op <;>
      simp [runAccess, applyAccess, ih, incrementView, incrementDownload,
        List.count_cons] <;> omega

theorem count_view_add_count_download (ops : List AccessOp) :
    ops.count AccessOp.view + ops.count AccessOp.download = ops.length := by
  induction ops with
  | nil => rfl
  | cons op rest ih =>
    cases op <;> simp [List.count_cons] <;> omega

theorem runAccess_lastAccessedAt (ops : List AccessOp) : ∀ (f : FileAsset) (t : Nat),
    ops ≠ [] →
    (runAccess f t ops).stats.lastAccessedAt = some (t + (ops.length - 1)) := by
  induction ops with
  | nil => intro f t h; exact absurd rfl h
  | cons op rest ih =>
    intro f t _
    cases hrest : rest with
    | nil =>
      subst hrest
      cases op <;> simp [runAccess, applyAccess, incrementView, incrementDownload]
    | cons b l =>
      have hne : rest ≠ [] := by rw [hrest]; simp
      have h2 := ih (applyAccess f t op) (t + 1) hne
      subst hrest
      rw [runAccess, h2]
      simp only [Option.some.injEq, List.length_cons]
      omega

/-- C9: each `incrementView`/`incrementDownload` adds exactly 1 to its
counter and stamps `lastAccessedAt` with the instant of the call; any
interleaving of calls distributes totals by call kind (ten calls from
zeroed counters sum to 10), and both counters are monotonically
non-decreasing. -/
theorem stats_monotonicity (f : FileAsset) (t : Nat) (ops : List AccessOp) :
    (runAccess f t ops).stats.viewCount = f.stats.viewCount + ops.count AccessOp.view ∧
    (runAccess f t ops).stats.downloadCount =
      f.stats.downloadCount + ops.count AccessOp.download ∧
    ops.count AccessOp.view + ops.count AccessOp.download = ops.length ∧
    (ops ≠ [] → (runAccess f t ops).stats.lastAccessedAt = some (t + (ops.length - 1))) ∧
    f.stats.viewCount ≤ (runAccess f t ops).stats.viewCount ∧
    f.stats.downloadCount ≤ (runAccess f t ops).stats.downloadCount ∧
    (f.stats.viewCount = 0 → f.stats.downloadCount = 0 → ops.length = 10 →
      (runAccess f t ops).stats.viewCount + (runAccess f t ops).stats.downloadCount = 10) := by
  have hv := runAccess_viewCount ops f t
  have hd := runAccess_downloadCount ops f t
  have hc := count_view_add_count_download ops
  refine ⟨hv, hd, hc, runAccess_lastAccessedAt ops f t, by omega, by omega, ?_⟩
  intro h0 h0' hlen
  omega

/-- Witness for C9: ten interleaved calls on the zero-stat sample asset. -/
theorem stats_monotonicity_witness :
    (runAccess sampleAsset 5 tenOps).stats.viewCount +
      (runAccess sampleAsset 5 tenOps).stats.downloadCount = 10 ∧
    (runAccess sampleAsset 5 tenOps).stats.lastAccessedAt = some 14 :=
  ⟨(stats_monotonicity sampleAsset 5 tenOps).2.2.2.2.2.2 rfl rfl rfl,
   by have h := (stats_monotonicity sampleAsset 5 tenOps).2.2.2.1 (by decide)
      simpa using h⟩

/-! ## Lemmas for the variant-generation pipeline -/

theorem findFirstById_append_single_none {l : List FileAsset} {x : FileAsset} {i : Nat}
    (h : findFirstById l i = none) :
    findFirstById (l ++ [x]) i = if x.id = i then some x else none := by
  induction l with
  | nil => simp [findFirstById]
  | cons a rest ih =>
    by_cases ha : a.id = i
    · simp [findFirstById, ha] at h
    · simp only [findFirstById, ha, if_false] at h
      simp only [List.cons_append, findFirstById, ha, if_false]
      exact ih h

/-- After `save()`, the stored record under the saved id is the saved
record (whether it replaced an existing record or was inserted). -/
theorem findFirstById_saveDoc (s : FileStore) (g : FileAsset) :
    findFirstById (saveDoc s g).files g.id = some g := by
  cases hf : findFirstById s.files g.id with
  | none =>
    have hcond : (findFirstById s.files g.id).isSome = false := by rw [hf]; rfl
    simp only [saveDoc, hcond, Bool.false_eq_true, if_false]
    rw [findFirstById_append_single_none hf]
    simp
  | some f0 =>
    have hcond : (findFirstById s.files g.id).isSome = true := by rw [hf]; rfl
    simp only [saveDoc, hcond, if_true]
    exact findFirstById_replaceFirstById rfl hf

/-- Setting a fresh key in the `resized` map appends it at the end. -/
theorem map_fst_setEntry {l : List (String × ResizedMeta)} {k : String} {v : ResizedMeta}
    (h : k ∉ l.map Prod.fst) :
    (setEntry l k v).map Prod.fst = l.map Prod.fst ++ [k] := by
  induction l with
  | nil => rfl
  | cons p rest ih =>
    simp only [List.map_cons, List.mem_cons] at h
    push_neg at h
    have hne : p.1 ≠ k := fun hc => h.1 hc.symm
    cases p with
    | mk k' v' =>
      simp only [setEntry, hne, if_false, List.map_cons, List.cons_append, List.cons.injEq,
        true_and]
      exact ih h.2

/-- Running the loop on an all-succeeding prefix followed by a failing
config stops at the failure, having recorded exactly the prefix's
variants, leaving the record's id and status untouched and the store
holding the last-persisted record. -/
theorem runVariants_error (resize : ResizeConfig → Except String (Nat × Dimensions))
    (srcBase : String) (bad : ResizeConfig) (post : List ResizeConfig) (e : String)
    (hbad : resize bad = Except.error e) :
    ∀ (pre : List ResizeConfig) (store : FileStore) (f : FileAsset),
    (∀ cfg ∈ pre, ∃ v, resize cfg = Except.ok v) →
    (∀ cfg ∈ pre, cfg.type ∉ f.resized.map Prod.fst) →
    (pre.map ResizeConfig.type).Nodup →
    findFirstById store.files f.id = some f →
    ∃ store' f',
      runVariants resize srcBase store f (pre ++ bad :: post) = (store', f', some e) ∧
      f'.id = f.id ∧ f'.status = f.status ∧
      f'.resized.map Prod.fst = f.resized.map Prod.fst ++ pre.map ResizeConfig.type ∧
      findFirstById store'.files f.id = some f' := by
  intro pre
  induction pre with
  | nil =>
    intro store f _ _ _ hstore
    refine ⟨store, f, ?_, rfl, rfl, ?_, hstore⟩
    · simp [runVariants, createSingleResizedVersion, hbad]
    · simp
  | cons cfg rest ih =>
    intro store f hok hkeys hnodup hstore
    obtain ⟨v, hv⟩ := hok cfg (by simp)
    obtain ⟨sz, dims⟩ := v
    have hfresh : cfg.type ∉ f.resized.map Prod.fst := hkeys cfg (by simp)
    simp only [List.map_cons, List.nodup_cons] at hnodup
    simp only [List.cons_append, runVariants, createSingleResizedVersion, hv]
    set meta : ResizedMeta :=
      { filename := stemOf f.original.filename ++ "_" ++ cfg.type ++ "." ++ f.original.extension,
        path := dirnameOf f.original.path ++ "/" ++
          (stemOf f.original.filename ++ "_" ++ cfg.type ++ "." ++ f.original.extension),
        url := publicUrlOf srcBase (dirnameOf f.original.path ++ "/" ++
          (stemOf f.original.filename ++ "_" ++ cfg.type ++ "." ++ f.original.extension)),
        size := sz, dimensions := some dims } with hmeta
    have hkeysF : (addResizedVersionDoc f cfg.type meta).resized.map Prod.fst =
        f.resized.map Prod.fst ++ [cfg.type] := map_fst_setEntry hfresh
    have hrec := ih (saveDoc store (addResizedVersionDoc f cfg.type meta))
      (addResizedVersionDoc f cfg.type meta)
      (fun c hc => hok c (by simp [hc]))
      (by
        intro c hc
        rw [hkeysF]
        simp only [List.mem_append, List.mem_singleton]
        push_neg
        refine ⟨hkeys c (by simp [hc]), ?_⟩
        intro hcontra
        exact hnodup.1 (hcontra ▸ List.mem_map_of_mem ResizeConfig.type hc))
      hnodup.2
      (findFirstById_saveDoc store (addResizedVersionDoc f cfg.type meta))
    obtain ⟨store', f', heq, hid, hstat, hkeys', hfind'⟩ := hrec
    refine ⟨store', f', heq, hid, hstat, ?_, hfind'⟩
    rw [hkeys', hkeysF]
    simp

/-- C2: when the resizer fails on the variant after `pre` (with all of
`pre` succeeding), `createResizedVersions` fails with the underlying
error, and the persisted record has `status = failed` and a `resized` map
holding exactly the variants of `pre`, none of the later ones. -/
theorem variant_failure_durability
    (resize : ResizeConfig → Except String (Nat × Dimensions)) (srcBase : String)
    (store : FileStore) (f : FileAsset) (pre post : List ResizeConfig)
    (bad : ResizeConfig) (e : String)
    (himg : f.isImage = true)
    (hres : f.resized = [])
    (hok : ∀ cfg ∈ pre, ∃ v, resize cfg = Except.ok v)
    (hbad : resize bad = Except.error e)
    (hnodup : ((pre ++ bad :: post).map ResizeConfig.type).Nodup) :
    (createResizedVersions (some resize) srcBase store f (pre ++ bad :: post)).2 =
      Except.error e ∧
    ∃ f3, findById (createResizedVersions (some resize) srcBase store f
        (pre ++ bad :: post)).1 f.id = some f3 ∧
      f3.status = FileStatus.failed ∧
      f3.resized.map Prod.fst = pre.map ResizeConfig.type ∧
      bad.type ∉ f3.resized.map Prod.fst ∧
      (∀ cfg ∈ post, cfg.type ∉ f3.resized.map Prod.fst) := by
  rw [List.map_append, List.map_cons, List.nodup_append] at hnodup
  obtain ⟨hnodupPre, hnodupRest, hdisj⟩ := hnodup
  have hlen : (pre ++ bad :: post).length > 0 := by simp
  have hrun := runVariants_error resize srcBase bad post e hbad pre
    (saveDoc store { f with status := FileStatus.processing })
    { f with status := FileStatus.processing }
    hok
    (by intro c _; rw [show ({ f with status := FileStatus.processing } : FileAsset).resized =
      f.resized from rfl, hres]; simp)
    hnodupPre
    (findFirstById_saveDoc store { f with status := FileStatus.processing })
  obtain ⟨store2, f2, heq, hid, hstat, hkeys2, hfind2⟩ := hrun
  have hout : createResizedVersions (some resize) srcBase store f (pre ++ bad :: post) =
      (saveDoc store2 { f2 with status := FileStatus.failed }, Except.error e) := by
    simp only [createResizedVersions, himg, Bool.true_eq_false, if_false, hlen, if_true,
      gt_iff_lt]
    rw [heq]
  have hkeysPre : f2.resized.map Prod.fst = pre.map ResizeConfig.type := by
    rw [hkeys2]
    rw [show ({ f with status := FileStatus.processing } : FileAsset).resized =
      f.resized from rfl, hres]
    simp
  refine ⟨by rw [hout], { f2 with status := FileStatus.failed }, ?_, rfl, hkeysPre, ?_, ?_⟩
  · rw [hout, findById]
    have : ({ f2 with status := FileStatus.failed } : FileAsset).id = f.id := hid
    rw [← this]
    exact findFirstById_saveDoc store2 { f2 with status := FileStatus.failed }
  · rw [show ({ f2 with status := FileStatus.failed } : FileAsset).resized =
      f2.resized from rfl, hkeysPre]
    intro hcontra
    exact (hdisj hcontra) (by simp)
  · intro cfg hcfg
    rw [show ({ f2 with status := FileStatus.failed } : FileAsset).resized =
      f2.resized from rfl, hkeysPre]
    intro hcontra
    exact (hdisj hcontra) (by simp [List.mem_map_of_mem ResizeConfig.type hcfg])

/-- Witness for C2: variant #2 of the four defaults fails on the sample
image asset. -/
theorem variant_failure_durability_witness :
    (imageAsset.isImage = true ∧ imageAsset.resized = [] ∧
      demoResize demoBad = Except.error "resize failed" ∧
      ((demoPre ++ demoBad :: demoPost).map ResizeConfig.type).Nodup) ∧
    ((createResizedVersions (some demoResize) "/app/src/" demoStore imageAsset
        (demoPre ++ demoBad :: demoPost)).2 = Except.error "resize failed" ∧
     ∃ f3, findById (createResizedVersions (some demoResize) "/app/src/" demoStore imageAsset
          (demoPre ++ demoBad :: demoPost)).1 imageAsset.id = some f3 ∧
        f3.status = FileStatus.failed ∧
        f3.resized.map Prod.fst = demoPre.map ResizeConfig.type ∧
        demoBad.type ∉ f3.resized.map Prod.fst ∧
        (∀ cfg ∈ demoPost, cfg.type ∉ f3.resized.map Prod.fst)) :=
  ⟨⟨rfl, rfl, rfl, by decide⟩,
   variant_failure_durability demoResize "/app/src/" demoStore imageAsset demoPre demoPost
     demoBad "resize failed" rfl rfl
     (by
       intro cfg hcfg
       simp only [demoPre, List.mem_singleton] at hcfg
       subst hcfg
       exact ⟨(512, { width := 150, height := 150 }), rfl⟩)
     rfl (by decide)⟩

/-! ## Theorems: saveFile (C8) -/

/-- C8: `saveFile` persists a new asset with `status = active`, an empty
`resized` map, the lowercased extension derived from `originalName`, the
public URL computed from the stored path, and the supplied
tags/description/visibility/expiry; when dimension probing fails the asset
is still persisted, only with dimensions unset — the caller never sees an
error. -/
theorem register_asset_spec (sharpMeta : Option (String → Except String Dimensions))
    (srcBase : String) (store : FileStore) (fd : RawUpload) (d : Domain)
    (r u : String) (opts : SaveOptions) (now : Nat) (out : FileStore × FileAsset)
    (hout : out = saveFile sharpMeta srcBase store fd d r u opts now) :
    out.2.status = FileStatus.active ∧
    out.2.resized = [] ∧
    out.2.original.extension = ((extnameOf fd.originalname).toLower).drop 1 ∧
    out.2.original.url = publicUrlOf srcBase fd.path ∧
    out.2.original.size = fd.size ∧
    out.2.original.mimeType = fd.mimetype ∧
    out.2.originalName = fd.originalname ∧
    out.2.domain = d ∧ out.2.referenceId = r ∧ out.2.uploadedBy = u ∧
    out.2.tags = opts.tags.getD [] ∧
    out.2.description = opts.description.getD "" ∧
    out.2.isPublic = opts.isPublic.getD false ∧
    out.2.expiresAt = opts.expiresAt ∧
    out.2.id = store.nextId ∧
    findById out.1 out.2.id = some out.2 ∧
    (∀ probe err, sharpMeta = some probe → probe fd.path = Except.error err →
      out.2.original.dimensions = none) := by
  subst hout
  refine ⟨rfl, rfl, rfl, rfl, rfl, rfl, rfl, rfl, rfl, rfl, rfl, rfl, rfl, rfl, rfl, ?_, ?_⟩
  · exact findFirstById_saveDoc { store with nextId := store.nextId + 1 } _
  · intro probe err hp he
    subst hp
    cases hsw : strStartsWith fd.mimetype "image/" <;>
      simp [saveFile, hsw, he]

/-- Witness for C8: a PNG upload whose dimension probe always fails. -/
theorem register_asset_spec_witness :
    let fd : RawUpload :=
      { originalname := "photo.PNG", filename := "photo-123.png",
        path := "/app/src/uploads/profile-image/2025/10/photo-123.png",
        size := 2048, mimetype := "image/png" }
    let out := saveFile (some fun _ => Except.error "probe failed") "/app/src/"
      sampleStore fd Domain.profileImage "u1" "u1" {} 7
    out.2.status = FileStatus.active ∧
    out.2.resized = [] ∧
    findById out.1 out.2.id = some out.2 ∧
    out.2.original.dimensions = none :=
  ⟨(register_asset_spec (some fun _ => Except.error "probe failed") "/app/src/" sampleStore
      { originalname := "photo.PNG", filename := "photo-123.png",
        path := "/app/src/uploads/profile-image/2025/10/photo-123.png",
        size := 2048, mimetype := "image/png" }
      Domain.profileImage "u1" "u1" {} 7 _ rfl).1,
   (register_asset_spec (some fun _ => Except.error "probe failed") "/app/src/" sampleStore
      { originalname := "photo.PNG", filename := "photo-123.png",
        path := "/app/src/uploads/profile-image/2025/10/photo-123.png",
        size := 2048, mimetype := "image/png" }
      Domain.profileImage "u1" "u1" {} 7 _ rfl).2.1,
   (register_asset_spec (some fun _ => Except.error "probe failed") "/app/src/" sampleStore
      { originalname := "photo.PNG", filename := "photo-123.png",
        path := "/app/src/uploads/profile-image/2025/10/photo-123.png",
        size := 2048, mimetype := "image/png" }
      Domain.profileImage "u1" "u1" {} 7 _ rfl).2.2.2.2.2.2.2.2.2.2.2.2.2.2.2.1,
   (register_asset_spec (some fun _ => Except.error "probe failed") "/app/src/" sampleStore
      { originalname := "photo.PNG", filename := "photo-123.png",
        path := "/app/src/uploads/profile-image/2025/10/photo-123.png",
        size := 2048, mimetype := "image/png" }
      Domain.profileImage "u1" "u1" {} 7 _ rfl).2.2.2.2.2.2.2.2.2.2.2.2.2.2.2.2
     (fun _ => Except.error "probe failed") "probe failed" rfl rfl⟩

/-! ## Theorems: getFileStats (C5) -/

theorem mem_domainsIn {files : List FileAsset} {d : Domain} :
    d ∈ domainsIn files ↔ ∃ f ∈ files, f.domain = d := by
  induction files with
  | nil => simp [domainsIn]
  | cons g rest ih =>
    by_cases hg : g.domain ∈ domainsIn rest
    · simp only [domainsIn, hg, if_true]
      constructor
      · intro hd
        rcases ih.mp hd with ⟨f, hf, he⟩
        exact ⟨f, List.mem_cons_of_mem g hf, he⟩
      · rintro ⟨f, hf, he⟩
        rcases List.mem_cons.mp hf with hf | hf
        · subst hf; exact he ▸ hg
        · exact ih.mpr ⟨f, hf, he⟩
    · simp only [domainsIn, hg, if_false, List.mem_cons]
      constructor
      · rintro (hd | hd)
        · exact ⟨g, Or.inl rfl, hd.symm⟩
        · rcases ih.mp hd with ⟨f, hf, he⟩
          exact ⟨f, Or.inr hf, he⟩
      · rintro ⟨f, hf | hf, he⟩
        · subst hf; exact Or.inl he.symm
        · exact Or.inr (ih.mpr ⟨f, hf, he⟩)

/-- C5 counterexample: on a store holding a single soft-deleted asset, the
per-domain list of `getFileStats` still reports that asset (the `$group`
pipeline has no `$match` on status), while per-domain stats over active
assets would be empty — so the per-domain list is NOT computed over active
assets only. -/
theorem aggregate_stats_counterexample :
    (getFileStats cexStore).byDomain ≠ specByDomainActive cexStore ∧
    ((getFileStats cexStore).byDomain.map fun e => (e.domainKey, e.count, e.totalSize)) =
      [(Domain.profileImage, 1, 2048)] ∧
    specByDomainActive cexStore = [] ∧
    (getFileStats cexStore).totalFiles = 0 ∧
    (getFileStats cexStore).totalSize = 0 := by
  have h2 : ((getFileStats cexStore).byDomain.map
      fun e => (e.domainKey, e.count, e.totalSize)) = [(Domain.profileImage, 1, 2048)] := by
    decide
  have h3 : specByDomainActive cexStore = [] := by decide
  refine ⟨?_, h2, h3, by decide, by decide⟩
  intro h
  rw [h, h3] at h2
  simp at h2

/-- C5 (amended): `getFileStats` returns the count and total byte size of
ACTIVE assets, and a per-domain {count, totalSize, avgSize} list computed
over ALL assets regardless of status, sorted by count descending. -/
theorem aggregate_stats_amended (store : FileStore) :
    (getFileStats store).totalFiles =
      (store.files.filter fun f => f.status == FileStatus.active).length ∧
    (getFileStats store).totalSize =
      ((store.files.filter fun f => f.status == FileStatus.active).map
        fun f => f.original.size).sum ∧
    List.Sorted (fun a b : DomainStat => b.count ≤ a.count) (getFileStats store).byDomain ∧
    (∀ e ∈ (getFileStats store).byDomain,
      e.count = (store.files.filter fun f => f.domain == e.domainKey).length ∧
      e.totalSize = ((store.files.filter fun f => f.domain == e.domainKey).map
        fun f => f.original.size).sum) ∧
    (∀ d : Domain, (∃ f ∈ store.files, f.domain = d) ↔
      ∃ e ∈ (getFileStats store).byDomain, e.domainKey = d) := by
  refine ⟨rfl, rfl, ?_, ?_, ?_⟩
  · haveI htot : IsTotal DomainStat (fun a b => b.count ≤ a.count) :=
      ⟨fun a b => Nat.le_total b.count a.count⟩
    haveI htr : IsTrans DomainStat (fun a b => b.count ≤ a.count) :=
      ⟨fun _ _ _ hab hbc => le_trans hbc hab⟩
    exact List.sorted_insertionSort _ _
  · intro e he
    have he' : e ∈ (domainsIn store.files).map (groupStats store.files) := by
      rw [show (getFileStats store).byDomain =
        ((domainsIn store.files).map (groupStats store.files)).insertionSort
          (fun a b => b.count ≤ a.count) from rfl, List.mem_insertionSort] at he
      exact he
    rcases List.mem_map.mp he' with ⟨d, _, rfl⟩
    exact ⟨rfl, rfl⟩
  · intro d
    constructor
    · rintro ⟨f, hf, hfd⟩
      have hd : d ∈ domainsIn store.files := mem_domainsIn.mpr ⟨f, hf, hfd⟩
      refine ⟨groupStats store.files d, ?_, rfl⟩
      rw [show (getFileStats store).byDomain =
        ((domainsIn store.files).map (groupStats store.files)).insertionSort
          (fun a b => b.count ≤ a.count) from rfl, List.mem_insertionSort]
      exact List.mem_map_of_mem _ hd
    · rintro ⟨e, he, hed⟩
      rw [show (getFileStats store).byDomain =
        ((domainsIn store.files).map (groupStats store.files)).insertionSort
          (fun a b => b.count ≤ a.count) from rfl, List.mem_insertionSort] at he
      rcases List.mem_map.mp he with ⟨d', hd', rfl⟩
      have : d' = d := hed
      subst this
      exact mem_domainsIn.mp hd'

/-- Witness for C5 (amended): the two-asset store, whose single per-domain
row aggregates both active assets. -/
theorem aggregate_stats_amended_witness :
    (getFileStats twoAssetStore).totalFiles =
      (twoAssetStore.files.filter fun f => f.status == FileStatus.active).length ∧
    ∃ e ∈ (getFileStats twoAssetStore).byDomain, e.domainKey = Domain.profileImage ∧
      e.count = (twoAssetStore.files.filter fun f => f.domain == e.domainKey).length := by
  refine ⟨(aggregate_stats_amended twoAssetStore).1, ?_⟩
  obtain ⟨e, he, hed⟩ :=
    ((aggregate_stats_amended twoAssetStore).2.2.2.2 Domain.profileImage).mp
      ⟨sampleAsset, by decide, rfl⟩
  exact ⟨e, he, hed, ((aggregate_stats_amended twoAssetStore).2.2.2.1 e he).1⟩

end OzMongo

namespace OzMongo

/-! ## Theorems: email queue -/

/-- C1: enqueue X into an empty queue; the notifier fails on attempt 0 and
succeeds on attempt 1; after two `processQueue` calls the payload has been
delivered exactly once, the retried copy seen in `pending` between the two
calls carries a new id and a new `createdAt` with the same payload, and both
lists finish empty. -/
theorem requeue_on_failure_round_trip (p : EmailPayload) (c : Nat) :
    let w0 := enqueueW (emptyWorld c) p
    let notifier : Nat → Bool := fun n => n != 0
    let w1 := processQueue notifier w0
    let w2 := processQueue notifier w1
    (∃ m : QueueMessage,
      w1.queue.pending = [m] ∧ m.payload = p ∧
      m.id ≠ (addToQueue (emptyWorld c).queue p).1 ∧ m.createdAt ≠ c) ∧
    w1.queue.processing = [] ∧
    w2.delivered = [p] ∧
    w2.queue.pending.length + w2.queue.processing.length = 0 := by
  refine ⟨⟨{ id := c + 1, payload := p, createdAt := c + 1, status := "pending" },
    ?_, rfl, ?_, ?_⟩, ?_, ?_, ?_⟩ <;>
    simp [processQueue, enqueueW, emptyWorld, addToQueue, getFromQueue, rPopList,
      moveToProcessing, removeFromProcessing, removeFirstById, lPush]

/-- C3: enqueue payloads A, B, C in that order; with a notifier that always
succeeds, three `processQueue` calls deliver them in order A, B, C. -/
theorem fifo_ordering_no_failures (a b c : EmailPayload) (t : Nat) :
    let w0 := enqueueW (enqueueW (enqueueW (emptyWorld t) a) b) c
    let notifier : Nat → Bool := fun _ => true
    let w3 := processQueue notifier (processQueue notifier (processQueue notifier w0))
    w3.delivered = [a, b, c] ∧
    w3.queue.pending = [] ∧ w3.queue.processing = [] := by
  simp [processQueue, enqueueW, emptyWorld, addToQueue, getFromQueue, rPopList,
    moveToProcessing, removeFromProcessing, removeFirstById, lPush]

end OzMongo
